import Mathlib

set_option linter.unusedVariables false

/-!
# Verification of the tycho Matching & Tailoring Engine

Shallow embedding of the core algorithms of the `tycho` repository
(`src/tycho/collector/normalize.py`, `src/tycho/matcher/keywords.py`,
`src/tycho/matcher/scorer.py`, `src/tycho/cv/module_selector.py`) and proofs
of the specification claims about them.

Modelling conventions:
* Python strings are modelled as `List Char` (or Lean `String` wrappers over
  their character lists); `str.lower()` is modelled by `Char.toLower`, which
  agrees with Python on ASCII.
* Python floats are modelled as `ℚ`; `round(x, 3)` is modelled by
  `round3`, rounding to an integer multiple of `1/1000` (the tie-at-exact-half
  rule differs from IEEE banker's rounding only on exact half-thousandths,
  which none of the proved properties depend on).
* The MD5 digest in `dedup_key` is modelled by the digested string itself
  (i.e. digest collisions are abstracted away; collisions of the joined
  normalized string are modelled faithfully).
* Fallible calls into the optional LLM capability are modelled with `Except`.
-/

namespace Tycho

/-! ## Character / string utilities -/

/-- ASCII whitespace as matched by Python's `str.strip` and `\s`:
space, tab, newline, carriage return, vertical tab, form feed. -/
def pySpace (c : Char) : Bool :=
  c = ' ' || c = '\t' || c = '\n' || c = '\r' || c = Char.ofNat 11 || c = Char.ofNat 12

/-- Python `str.strip()`: drop whitespace from both ends. -/
def pyStrip (s : List Char) : List Char :=
  ((s.dropWhile pySpace).reverse.dropWhile pySpace).reverse

/-- One pass of `re.sub(r"\s+", " ", s)`: every maximal run of whitespace
becomes a single space.  The flag records whether the previous character was
part of a whitespace run. -/
def collapseWS : Bool → List Char → List Char
  | _, [] => []
  | inRun, c :: cs =>
    if pySpace c then
      if inRun then collapseWS true cs else ' ' :: collapseWS true cs
    else c :: collapseWS false cs

/-- Python `str.lower()` restricted to ASCII case mapping. -/
def lowerChars (s : List Char) : List Char := s.map Char.toLower

/-- Python `needle in hay` on strings: contiguous substring containment. -/
def isSubstring (needle hay : List Char) : Bool :=
  (List.range (hay.length + 1)).any (fun i => (hay.drop i).take needle.length = needle)

/-- Python `s.endswith(suf)`. -/
def endsWith (s suf : List Char) : Bool :=
  suf.length ≤ s.length && s.drop (s.length - suf.length) = suf

/-! ## `tycho.collector.normalize` -/

/-- `normalize_text` from `collector/normalize.py`: lowercase, strip,
collapse internal whitespace runs to one space. -/
def normalize_text (s : List Char) : List Char :=
  collapseWS false (pyStrip (lowerChars s))

/-- The fixed suffix list of `normalize_company`, in source order. -/
def companySuffixes : List (List Char) :=
  [" inc".data, " inc.".data, " ltd".data, " ltd.".data, " llc".data,
   " s.a.".data, " s.l.".data, " gmbh".data, " plc".data]

/-- The suffix-stripping loop of `normalize_company`: each suffix of the list
is checked once, in order, against the current value of `company`. -/
def stripSuffixes : List (List Char) → List Char → List Char
  | [], company => company
  | suf :: rest, company =>
    if endsWith company suf then
      stripSuffixes rest (company.take (company.length - suf.length))
    else
      stripSuffixes rest company

/-- `normalize_company` from `collector/normalize.py`. -/
def normalize_company (company : List Char) : List Char :=
  pyStrip (stripSuffixes companySuffixes (normalize_text company))

/-- The fields of `tycho.models.Job` that the engine reads (remaining fields
of the Pydantic model are never consulted by the verified code paths). -/
structure Job where
  id : String
  title : String
  company : String
  location : String
  description : String
deriving DecidableEq

/-- `dedup_key` from `collector/normalize.py`.  The source MD5-hashes the
joined string; the hash is modelled by its preimage (see file header). -/
def dedup_key (job : Job) : List Char :=
  normalize_company job.company.data ++ '|' :: normalize_text job.title.data
    ++ '|' :: normalize_text job.location.data

/-- The body of `deduplicate`'s collision branch: keep the existing winner
unless the new posting's description is strictly longer, in which case the
new posting's content wins but it takes over the existing winner's id. -/
def updWinner (existing job : Job) : Job :=
  if job.description.length > existing.description.length then
    { job with id := existing.id }
  else existing

/-- One iteration of `deduplicate`'s loop on the insertion-ordered dict
`seen` (modelled as an association list: Python dicts preserve insertion
order, and assignment to an existing key keeps its position). -/
def insertJob : List (List Char × Job) → List Char → Job → List (List Char × Job)
  | [], key, job => [(key, job)]
  | (k, w) :: rest, key, job =>
    if k = key then (k, updWinner w job) :: rest
    else (k, w) :: insertJob rest key job

/-- The loop of `deduplicate` over the input list. -/
def dedupLoop : List (List Char × Job) → List Job → List (List Char × Job)
  | seen, [] => seen
  | seen, job :: jobs => dedupLoop (insertJob seen (dedup_key job) job) jobs

/-- `deduplicate` from `collector/normalize.py`: `list(seen.values())`. -/
def deduplicate (jobs : List Job) : List Job :=
  (dedupLoop [] jobs).map Prod.snd

/-! ### Specification-side descriptions of `deduplicate`

These two definitions follow the words of the spec (§4.1) and of claim C1,
to be compared with the implementation above. -/

/-- The dedup keys of the input in order of first sight (spec: "insertion
order of first-seen keys"). -/
def firstSeenKeys (jobs : List Job) : List (List Char) :=
  jobs.foldl (fun acc job => if dedup_key job ∈ acc then acc else acc ++ [dedup_key job]) []

/-- Spec-side winner update for one posting: a posting of a different key
leaves the winner alone; the first posting of the key becomes the winner;
a later one replaces content only when strictly longer, keeping the id. -/
def stepWinner (acc : Option Job) (k : List Char) (job : Job) : Option Job :=
  if dedup_key job = k then
    match acc with
    | none => some job
    | some w => some (updWinner w job)
  else acc

/-- Spec-side winner of a dedup key over the whole input list. -/
def winner (k : List Char) (jobs : List Job) : Option Job :=
  jobs.foldl (fun acc job => stepWinner acc k job) none

/-- Spec-side picture of the `seen` dict after the whole run. -/
def specEntries (jobs : List Job) : List (List Char × Job) :=
  (firstSeenKeys jobs).filterMap (fun k => (winner k jobs).map (fun w => (k, w)))

/-! ### Lemmas about `deduplicate` -/

theorem filterMap_ext {α β : Type} {f g : α → Option β} :
    ∀ {l : List α}, (∀ a ∈ l, f a = g a) → l.filterMap f = l.filterMap g := by
  intro l
  induction l with
  | nil => intro _; rfl
  | cons a l ih =>
      intro h
      rw [List.filterMap_cons, List.filterMap_cons, h a (List.mem_cons_self a l),
        ih (fun b hb => h b (List.mem_cons_of_mem a hb))]

theorem filterMap_pair_snd {α β : Type} (L : List α) (o : α → Option β) :
    (L.filterMap (fun k => (o k).map (fun w => (k, w)))).map Prod.snd = L.filterMap o := by
  induction L with
  | nil => rfl
  | cons k L ih => cases h : o k <;> simp [List.filterMap_cons, h, ih]

theorem filterMap_map_key {α β : Type} (f : β → α) :
    ∀ (L : List α) (o : α → Option β), (∀ k ∈ L, ∃ w, o k = some w ∧ f w = k) →
      (L.filterMap o).map f = L := by
  intro L
  induction L with
  | nil => intro o _; rfl
  | cons k L ih =>
      intro o h
      obtain ⟨w, hw, hf⟩ := h k (List.mem_cons_self k L)
      simp [List.filterMap_cons, hw, hf, ih o (fun a ha => h a (List.mem_cons_of_mem _ ha))]

theorem dedupLoop_append (xs : List Job) (x : Job) :
    ∀ seen, dedupLoop seen (xs ++ [x]) = insertJob (dedupLoop seen xs) (dedup_key x) x := by
  induction xs with
  | nil => intro seen; rfl
  | cons y ys ih => intro seen; simp only [List.cons_append, dedupLoop]; exact ih _

theorem firstSeenKeys_concat (xs : List Job) (x : Job) :
    firstSeenKeys (xs ++ [x]) =
      if dedup_key x ∈ firstSeenKeys xs then firstSeenKeys xs
      else firstSeenKeys xs ++ [dedup_key x] := by
  simp [firstSeenKeys, List.foldl_append]

theorem winner_concat (k : List Char) (xs : List Job) (x : Job) :
    winner k (xs ++ [x]) = stepWinner (winner k xs) k x := by
  simp [winner, List.foldl_append]

theorem exists_key_append {k : List Char} {ys : List Job} {y : Job} :
    (∃ j ∈ ys ++ [y], dedup_key j = k) ↔ (∃ j ∈ ys, dedup_key j = k) ∨ dedup_key y = k := by
  constructor
  · rintro ⟨j, hj, hk⟩
    rcases List.mem_append.mp hj with h | h
    · exact Or.inl ⟨j, h, hk⟩
    · rcases List.mem_singleton.mp h with rfl
      exact Or.inr hk
  · rintro (⟨j, hj, hk⟩ | hk)
    · exact ⟨j, List.mem_append.mpr (Or.inl hj), hk⟩
    · exact ⟨y, List.mem_append.mpr (Or.inr (List.mem_singleton.mpr rfl)), hk⟩

theorem mem_firstSeenKeys (xs : List Job) :
    ∀ k, (k ∈ firstSeenKeys xs ↔ ∃ j ∈ xs, dedup_key j = k) := by
  induction xs using List.reverseRecOn with
  | nil => intro k; simp [firstSeenKeys]
  | append_singleton ys y ih =>
      intro k
      rw [firstSeenKeys_concat, exists_key_append]
      by_cases hy : dedup_key y ∈ firstSeenKeys ys
      · rw [if_pos hy, ih k]
        constructor
        · exact Or.inl
        · rintro (h | hk)
          · exact h
          · exact hk ▸ (ih (dedup_key y)).mp hy
      · rw [if_neg hy, List.mem_append, List.mem_singleton, ih k]
        constructor
        · rintro (h | h)
          · exact Or.inl h
          · exact Or.inr h.symm
        · rintro (h | h)
          · exact Or.inl h
          · exact Or.inr h.symm

theorem winner_isSome (xs : List Job) :
    ∀ k, ((winner k xs).isSome ↔ ∃ j ∈ xs, dedup_key j = k) := by
  induction xs using List.reverseRecOn with
  | nil => intro k; simp [winner]
  | append_singleton ys y ih =>
      intro k
      rw [winner_concat, exists_key_append]
      by_cases hy : dedup_key y = k
      · cases hw : winner k ys <;>
          simp [stepWinner, hy, hw]
      · rw [show stepWinner (winner k ys) k y = winner k ys from if_neg hy, ih k]
        simp [hy]

theorem winner_eq_none {k : List Char} {xs : List Job}
    (h : k ∉ firstSeenKeys xs) : winner k xs = none := by
  rcases hw : winner k xs with _ | w
  · rfl
  · exact absurd ((mem_firstSeenKeys xs k).mpr
      ((winner_isSome xs k).mp (by rw [hw]; rfl))) h

theorem firstSeenKeys_nodup (xs : List Job) : (firstSeenKeys xs).Nodup := by
  induction xs using List.reverseRecOn with
  | nil => simp [firstSeenKeys]
  | append_singleton ys y ih =>
      rw [firstSeenKeys_concat]
      by_cases hy : dedup_key y ∈ firstSeenKeys ys
      · simpa [hy] using ih
      · rw [if_neg hy]
        exact List.Nodup.append ih (List.nodup_singleton _)
          (List.disjoint_singleton.mpr hy)

theorem insertJob_cons_eq {k kx : List Char} (w x : Job) (rest : List (List Char × Job))
    (h : k = kx) : insertJob ((k, w) :: rest) kx x = (k, updWinner w x) :: rest := by
  simp [insertJob, h]

theorem insertJob_cons_ne {k kx : List Char} (w x : Job) (rest : List (List Char × Job))
    (h : ¬(k = kx)) : insertJob ((k, w) :: rest) kx x = (k, w) :: insertJob rest kx x := by
  simp [insertJob, h]

theorem insertJob_filterMap (x : Job) (kx : List Char) :
    ∀ (L : List (List Char)) (o : List Char → Option Job), L.Nodup →
    (∀ k ∈ L, (o k).isSome) →
    insertJob (L.filterMap (fun k => (o k).map (fun w => (k, w)))) kx x =
      if kx ∈ L then
        L.filterMap (fun k =>
          (if k = kx then (o k).map (fun w => updWinner w x) else o k).map
            (fun w => (k, w)))
      else (L.filterMap (fun k => (o k).map (fun w => (k, w)))) ++ [(kx, x)] := by
  intro L
  induction L with
  | nil => intro o _ _; simp [insertJob]
  | cons k L' ih =>
      intro o hnd hsome
      obtain ⟨w, hw⟩ := Option.isSome_iff_exists.mp (hsome k (List.mem_cons_self k L'))
      have hkL' : k ∉ L' := (List.nodup_cons.mp hnd).1
      have hnd' : L'.Nodup := (List.nodup_cons.mp hnd).2
      have hsome' : ∀ a ∈ L', (o a).isSome := fun a ha => hsome a (List.mem_cons_of_mem _ ha)
      have hconsf : List.filterMap (fun a => (o a).map (fun v => (a, v))) (k :: L')
          = (k, w) :: List.filterMap (fun a => (o a).map (fun v => (a, v))) L' := by
        simp [List.filterMap_cons, hw]
      by_cases hk : k = kx
      · subst hk
        have hconsg : List.filterMap (fun a =>
              (if a = k then (o a).map (fun v => updWinner v x) else o a).map
                (fun v => (a, v))) (k :: L')
            = (k, updWinner w x) :: List.filterMap (fun a =>
              (if a = k then (o a).map (fun v => updWinner v x) else o a).map
                (fun v => (a, v))) L' := by
          simp [List.filterMap_cons, hw]
        rw [if_pos (List.mem_cons_self k L'), hconsf, hconsg, insertJob_cons_eq w x _ rfl]
        congr 1
        apply filterMap_ext
        intro a ha
        rw [if_neg (fun h : a = k => hkL' (h ▸ ha))]
      · have hconsg : List.filterMap (fun a =>
              (if a = kx then (o a).map (fun v => updWinner v x) else o a).map
                (fun v => (a, v))) (k :: L')
            = (k, w) :: List.filterMap (fun a =>
              (if a = kx then (o a).map (fun v => updWinner v x) else o a).map
                (fun v => (a, v))) L' := by
          simp [List.filterMap_cons, hw, hk]
        by_cases hmem : kx ∈ L'
        · rw [if_pos (List.mem_cons_of_mem _ hmem), hconsf, hconsg,
            insertJob_cons_ne w x _ hk, ih o hnd' hsome', if_pos hmem]
        · rw [if_neg (by
              intro hc
              rcases List.mem_cons.mp hc with hc | hc
              · exact hk hc.symm
              · exact hmem hc),
            hconsf, insertJob_cons_ne w x _ hk, ih o hnd' hsome', if_neg hmem]
          rfl

theorem dedupLoop_spec (jobs : List Job) : dedupLoop [] jobs = specEntries jobs := by
  induction jobs using List.reverseRecOn with
  | nil => rfl
  | append_singleton xs x ih =>
      rw [dedupLoop_append, ih]
      unfold specEntries
      rw [insertJob_filterMap x (dedup_key x) (firstSeenKeys xs) (fun k => winner k xs)
        (firstSeenKeys_nodup xs)
        (fun k hk => (winner_isSome xs k).mpr ((mem_firstSeenKeys xs k).mp hk))]
      by_cases hx : dedup_key x ∈ firstSeenKeys xs
      · rw [if_pos hx, firstSeenKeys_concat, if_pos hx]
        apply filterMap_ext
        intro k hk
        rw [winner_concat]
        by_cases hkx : k = dedup_key x
        · subst hkx
          obtain ⟨w, hw⟩ := Option.isSome_iff_exists.mp
            ((winner_isSome xs (dedup_key x)).mpr ((mem_firstSeenKeys xs (dedup_key x)).mp hx))
          rw [hw]
          simp [stepWinner]
        · rw [show stepWinner (winner k xs) k x = winner k xs
            from if_neg (fun h : dedup_key x = k => hkx h.symm), if_neg hkx]
      · rw [if_neg hx, firstSeenKeys_concat, if_neg hx, List.filterMap_append]
        congr 1
        · apply filterMap_ext
          intro k hk
          rw [winner_concat, show stepWinner (winner k xs) k x = winner k xs
            from if_neg (fun h : dedup_key x = k => hx (h ▸ hk))]
        · have hwx : winner (dedup_key x) (xs ++ [x]) = some x := by
            rw [winner_concat, winner_eq_none hx]
            simp [stepWinner]
          simp [hwx]

theorem deduplicate_eq_filterMap (jobs : List Job) :
    deduplicate jobs = (firstSeenKeys jobs).filterMap (fun k => winner k jobs) := by
  unfold deduplicate
  rw [dedupLoop_spec]
  exact filterMap_pair_snd _ _

theorem winner_key {k : List Char} {xs : List Job} :
    ∀ {w : Job}, winner k xs = some w → dedup_key w = k := by
  induction xs using List.reverseRecOn with
  | nil => intro w h; cases h
  | append_singleton ys y ih =>
      intro w h
      rw [winner_concat] at h
      by_cases hy : dedup_key y = k
      · rw [show stepWinner (winner k ys) k y
            = match winner k ys with
              | none => some y
              | some v => some (updWinner v y) from if_pos hy] at h
        rcases hw : winner k ys with _ | v
        · rw [hw] at h
          cases h
          exact hy
        · rw [hw] at h
          cases h
          unfold updWinner
          split
          · exact hy
          · exact ih hw
      · rw [show stepWinner (winner k ys) k y = winner k ys from if_neg hy] at h
        exact ih h

theorem deduplicate_keys (jobs : List Job) :
    (deduplicate jobs).map dedup_key = firstSeenKeys jobs := by
  rw [deduplicate_eq_filterMap]
  apply filterMap_map_key
  intro k hk
  obtain ⟨w, hw⟩ := Option.isSome_iff_exists.mp
    ((winner_isSome jobs k).mpr ((mem_firstSeenKeys jobs k).mp hk))
  exact ⟨w, hw, winner_key hw⟩

theorem specEntries_keys (xs : List Job) :
    (specEntries xs).map Prod.fst = firstSeenKeys xs := by
  unfold specEntries
  apply filterMap_map_key
  intro k hk
  obtain ⟨w, hw⟩ := Option.isSome_iff_exists.mp
    ((winner_isSome xs k).mpr ((mem_firstSeenKeys xs k).mp hk))
  exact ⟨(k, w), by rw [hw]; rfl, rfl⟩

theorem insertJob_notMem {S : List (List Char × Job)} {k : List Char} (x : Job) :
    k ∉ S.map Prod.fst → insertJob S k x = S ++ [(k, x)] := by
  induction S with
  | nil => intro _; rfl
  | cons p S ih =>
      intro h
      obtain ⟨k', w⟩ := p
      rw [List.map_cons] at h
      have h1 : ¬(k' = k) := fun e => h (by rw [e]; exact List.mem_cons_self _ _)
      have h2 : k ∉ S.map Prod.fst := fun hm => h (List.mem_cons_of_mem _ hm)
      simp [insertJob, h1, ih h2]

theorem deduplicate_eq_self {ys : List Job} :
    (ys.map dedup_key).Nodup → deduplicate ys = ys := by
  induction ys using List.reverseRecOn with
  | nil => intro _; rfl
  | append_singleton xs x ih =>
      intro h
      rw [List.map_append] at h
      obtain ⟨hxs, -, hdisj⟩ := List.nodup_append.mp h
      have hx : dedup_key x ∉ xs.map dedup_key := fun hm =>
        hdisj hm (List.mem_singleton.mpr rfl)
      have hx' : dedup_key x ∉ firstSeenKeys xs := fun hm => by
        obtain ⟨j, hj, hk⟩ := (mem_firstSeenKeys xs (dedup_key x)).mp hm
        exact hx (hk ▸ List.mem_map_of_mem dedup_key hj)
      have hkeys : (dedupLoop [] xs).map Prod.fst = firstSeenKeys xs := by
        rw [dedupLoop_spec]; exact specEntries_keys xs
      unfold deduplicate
      rw [dedupLoop_append, insertJob_notMem x (hkeys ▸ hx'), List.map_append]
      have : (dedupLoop [] xs).map Prod.snd = xs := ih hxs
      rw [this]
      rfl

/-! ### Claim theorems for `deduplicate` -/

/-- C1: `deduplicate` keeps exactly one winner per dedup key: the output is
exactly the list of per-key winners (first-seen posting, content replaced by
a strictly longer later description with the original id carried over, ties
keeping the original) listed in first-seen key order, with pairwise distinct
keys. -/
theorem deduplicate_first_seen_winners (jobs : List Job) :
    deduplicate jobs = (firstSeenKeys jobs).filterMap (fun k => winner k jobs) ∧
    (deduplicate jobs).map dedup_key = firstSeenKeys jobs ∧
    (firstSeenKeys jobs).Nodup :=
  ⟨deduplicate_eq_filterMap jobs, deduplicate_keys jobs, firstSeenKeys_nodup jobs⟩

/-- C8: `deduplicate` is idempotent. -/
theorem deduplicate_idempotent (jobs : List Job) :
    deduplicate (deduplicate jobs) = deduplicate jobs :=
  deduplicate_eq_self ((deduplicate_keys jobs).symm ▸ firstSeenKeys_nodup jobs)

/-! ## `tycho.models`: profile data model

Only the fields read by the verified code paths are modelled; Pydantic
defaults and unread presentation fields (phones, hobbies, urls, …) are
omitted. -/

structure Skill where
  name : String
  tags : List String
  priority : Int
deriving DecidableEq

structure Language where
  language : String
  level : String
  level_es : String
deriving DecidableEq

structure SummaryVariations where
  ml_focus : Option String
  backend_focus : Option String
  data_focus : Option String
deriving DecidableEq

structure Summary where
  default : String
  variations : SummaryVariations
deriving DecidableEq

structure PersonalInfo where
  name : String
  email : String
  titles : List String
  summary : Summary
deriving DecidableEq

structure SkillsData where
  technical : List Skill
  languages : List Language
deriving DecidableEq

structure BulletVariations where
  ml_focus : Option String
  backend_focus : Option String
  data_focus : Option String
deriving DecidableEq

structure Bullet where
  id : String
  text : String
  text_es : String
  tags : List String
  priority : Int
  variations : BulletVariations
deriving DecidableEq

structure ExperienceModule where
  id : String
  company : String
  title : String
  title_es : String
  dates : String
  dates_es : String
  location : String
  note : Option String
  note_es : Option String
  priority : Int
  skills : List String
  bullets : List Bullet
  enabled : Bool
deriving DecidableEq

structure EducationModule where
  id : String
  institution : String
  institution_es : Option String
  degree : String
  degree_es : String
  dates : String
  dates_es : String
  location : String
  gpa : Option String
  priority : Int
  skills : List String
  bullets : List Bullet
  enabled : Bool
deriving DecidableEq

structure OtherModule where
  id : String
  organization : String
  title : String
  title_es : String
  dates : String
  dates_es : String
  location : String
  priority : Int
  skills : List String
  bullets : List Bullet
  enabled : Bool
deriving DecidableEq

structure Profile where
  personal : PersonalInfo
  skills : SkillsData
  experience : List ExperienceModule
  education : List EducationModule
  other : List OtherModule
deriving DecidableEq

/-- `tycho.models.LLMKeywordResult`. -/
structure LLMKeywordResult where
  keywords : List String
  required_skills : List String
  nice_to_have_skills : List String
  focus_area : Option String
deriving DecidableEq

/-- The LLM capability interface (spec §6) as seen by the engine: an
availability flag plus the outcome of a call.  A call that raises an
exception, or whose response fails structured parsing, is an `error`
outcome; the payload is otherwise opaque to the engine. -/
structure LLMClient where
  available : Bool
  structuredResult : Except String LLMKeywordResult
  invokeResult : Except String String

/-! ## `tycho.matcher.keywords` -/

/-- `str.lower()` on a Lean `String`. -/
def strLower (s : String) : String := ⟨lowerChars s.data⟩

/-- Python `str.isalnum()` for one ASCII character. -/
def pyIsAlnumChar (c : Char) : Bool := c.isAlpha || c.isDigit

/-- Python `str.isalnum()`: nonempty and all characters alphanumeric. -/
def pyIsAlnum (s : List Char) : Bool := !s.isEmpty && s.all pyIsAlnumChar

/-- A regex `\w` word character: `[A-Za-z0-9_]`. -/
def wordChar (c : Char) : Bool := pyIsAlnumChar c || c = '_'

/-- `kw` occurs in `text` at position `i` with `\b` word boundaries on both
sides (for `kw` consisting of word characters, this is exactly
`re.search(rf"\b{kw}\b", text)` succeeding at `i`). -/
def boundaryAt (kw text : List Char) (i : Nat) : Bool :=
  decide ((text.drop i).take kw.length = kw) &&
  (decide (i = 0) || !wordChar (text.getD (i - 1) ' ')) &&
  (decide (i + kw.length = text.length) || !wordChar (text.getD (i + kw.length) ' '))

/-- `re.search(rf"\b{re.escape(kw)}\b", text)` succeeds somewhere. -/
def boundaryMatch (kw text : List Char) : Bool :=
  (List.range (text.length + 1)).any (boundaryAt kw text)

/-- `_word_match` from `matcher/keywords.py`: multi-word phrases or terms
with non-alphanumeric characters match as substrings; single alphanumeric
words match with word boundaries. -/
def _word_match (keyword text : List Char) : Bool :=
  let text_lower := lowerChars text
  let kw_lower := lowerChars keyword
  if keyword.contains ' ' || !pyIsAlnum keyword then
    isSubstring kw_lower text_lower
  else
    boundaryMatch kw_lower text_lower

/-- `TECH_KEYWORDS` from `matcher/keywords.py`.  The source keeps these in a
Python `set`; its iteration order is irrelevant because extraction output is
sorted, so a list in source order is a faithful model. -/
def TECH_KEYWORDS : List String :=
  ["python", "java", "javascript", "typescript", "c++", "c#", "go", "rust",
   "ruby", "php", "swift", "kotlin", "scala", "r", "matlab",
   "pytorch", "tensorflow", "keras", "scikit-learn", "sklearn",
   "pandas", "numpy", "scipy", "matplotlib",
   "langchain", "llm", "rag", "gpt", "bert", "transformer",
   "docker", "kubernetes", "aws", "azure", "gcp", "cloud",
   "sql", "postgresql", "mysql", "mongodb", "redis", "elasticsearch",
   "react", "vue", "angular", "node", "fastapi", "flask", "django",
   "git", "ci/cd", "linux", "agile", "scrum",
   "machine learning", "deep learning", "computer vision", "nlp",
   "natural language processing", "reinforcement learning",
   "data science", "data engineering", "mlops",
   "onnx", "cuda", "tensorrt",
   "api", "rest", "graphql", "microservices"]

/-- Lexicographic comparison of strings by character code point, as Python
compares strings. -/
def lexLeB : List Char → List Char → Bool
  | [], _ => true
  | _ :: _, [] => false
  | c :: cs, d :: ds => if c = d then lexLeB cs ds else decide (c < d)

def insertLe (s : String) : List String → List String
  | [] => [s]
  | t :: ts => if lexLeB s.data t.data then s :: t :: ts else t :: insertLe s ts

/-- Python `sorted` on strings (insertion sort; order is total so the
implementation choice is immaterial). -/
def sortStrings (l : List String) : List String := l.foldr insertLe []

def dedupList : List String → List String
  | [] => []
  | s :: rest => s :: (dedupList rest).filter (fun t => t != s)

/-- Python `sorted(set(l))`. -/
def pySortedSet (l : List String) : List String := sortStrings (dedupList l)

/-- The body of the profile-skill loop of `_extract_keywords_regex`. -/
def skillStep (text : List Char) (acc : List String) (skill : Skill) : List String :=
  if !acc.contains (strLower skill.name) && _word_match (strLower skill.name).data text then
    acc ++ [strLower skill.name]
  else acc

/-- `_extract_keywords_regex` from `matcher/keywords.py`. -/
def _extract_keywords_regex (description : String) (profile : Option Profile) : List String :=
  let text := lowerChars description.data
  let found := TECH_KEYWORDS.filter (fun kw => _word_match kw.data text)
  let found2 :=
    match profile with
    | none => found
    | some p => p.skills.technical.foldl (skillStep text) found
  pySortedSet found2

/-- `extract_keywords` from `matcher/keywords.py`.  The `try/except` around
the capability call (and the merge of its three keyword lists) is modelled by
the `Except` outcome carried by the client; the source's
`getattr(llm_client, "available", False)` is the `available` flag.  The
function is total: no failure of the capability path can escape. -/
def extract_keywords (description : String) (profile : Option Profile)
    (llm_client : Option LLMClient) : List String :=
  let regex_keywords := _extract_keywords_regex description profile
  match llm_client with
  | some client =>
      if client.available then
        match client.structuredResult with
        | Except.ok r =>
            pySortedSet (regex_keywords ++ (r.keywords.map strLower)
              ++ (r.required_skills.map strLower) ++ (r.nice_to_have_skills.map strLower))
        | Except.error _ => regex_keywords
      else regex_keywords
  | none => regex_keywords

/-! ### Lemmas about keyword extraction -/

theorem mem_insertLe {t s : String} {l : List String} :
    t ∈ insertLe s l ↔ t = s ∨ t ∈ l := by
  induction l with
  | nil => simp [insertLe]
  | cons a l ih =>
      by_cases h : lexLeB s.data a.data
      · simp [insertLe, h]
      · simp only [insertLe, h, if_false, Bool.false_eq_true, List.mem_cons, ih]
        tauto

theorem mem_sortStrings {t : String} {l : List String} :
    t ∈ sortStrings l ↔ t ∈ l := by
  induction l with
  | nil => simp [sortStrings]
  | cons a l ih =>
      rw [show sortStrings (a :: l) = insertLe a (sortStrings l) from rfl,
        mem_insertLe, ih, List.mem_cons]

theorem mem_dedupList {t : String} {l : List String} :
    t ∈ dedupList l ↔ t ∈ l := by
  induction l with
  | nil => exact Iff.rfl
  | cons a l ih =>
      simp only [dedupList, List.mem_cons, List.mem_filter, ih, bne_iff_ne, ne_eq]
      by_cases h : t = a
      · simp [h]
      · simp [h]

theorem mem_pySortedSet {t : String} {l : List String} :
    t ∈ pySortedSet l ↔ t ∈ l := by
  unfold pySortedSet
  rw [mem_sortStrings, mem_dedupList]

theorem skillLoop_not_mem (text : List Char)
    (hsql : _word_match "sql".data text = false) :
    ∀ (skills : List Skill) (acc : List String), "sql" ∉ acc →
      "sql" ∉ skills.foldl (skillStep text) acc := by
  intro skills
  induction skills with
  | nil => exact fun acc h => h
  | cons skill skills ih =>
      intro acc h
      rw [List.foldl_cons]
      apply ih
      unfold skillStep
      split
      · rename_i hc
        intro hm
        rcases List.mem_append.mp hm with hm | hm
        · exact h hm
        · have he : strLower skill.name = "sql" := (List.mem_singleton.mp hm).symm
          rw [he, hsql, Bool.and_false] at hc
          cases hc
      · exact h

theorem skillLoop_mem (text : List Char) :
    ∀ (skills : List Skill) (acc : List String), "sql" ∈ acc →
      "sql" ∈ skills.foldl (skillStep text) acc := by
  intro skills
  induction skills with
  | nil => exact fun acc h => h
  | cons skill skills ih =>
      intro acc h
      rw [List.foldl_cons]
      apply ih
      unfold skillStep
      split
      · exact List.mem_append.mpr (Or.inl h)
      · exact h

/-! ### Claim theorems for keyword extraction -/

/-- C3: a vocabulary or profile-skill term containing a space or any
non-alphanumeric character matches as a case-insensitive substring, while a
single alphanumeric term matches only at word boundaries; consequently, for
any profile, the description "PostgreSQL" never yields the keyword "sql",
while "SQL required" does. -/
theorem extract_keywords_word_boundary :
    (∀ kw text : List Char, _word_match kw text =
        if kw.contains ' ' || !pyIsAlnum kw then
          isSubstring (lowerChars kw) (lowerChars text)
        else boundaryMatch (lowerChars kw) (lowerChars text)) ∧
    (∀ p : Option Profile, "sql" ∉ _extract_keywords_regex "PostgreSQL" p) ∧
    (∀ p : Option Profile, "sql" ∈ _extract_keywords_regex "SQL required" p) := by
  have hsql_pg : _word_match "sql".data (lowerChars "PostgreSQL".data) = false := by decide
  have hsql_req : _word_match "sql".data (lowerChars "SQL required".data) = true := by decide
  have hnotfound : "sql" ∉ TECH_KEYWORDS.filter
      (fun kw => _word_match kw.data (lowerChars "PostgreSQL".data)) := by
    intro hm
    have := (List.mem_filter.mp hm).2
    rw [hsql_pg] at this
    cases this
  refine ⟨fun kw text => rfl, ?_, ?_⟩
  · intro p
    intro hmem
    simp only [_extract_keywords_regex] at hmem
    rw [mem_pySortedSet] at hmem
    cases p with
    | none => exact hnotfound hmem
    | some p => exact skillLoop_not_mem _ hsql_pg p.skills.technical _ hnotfound hmem
  · intro p
    simp only [_extract_keywords_regex]
    rw [mem_pySortedSet]
    have hfound : "sql" ∈ TECH_KEYWORDS.filter
        (fun kw => _word_match kw.data (lowerChars "SQL required".data)) :=
      List.mem_filter.mpr ⟨by decide, by rw [hsql_req]⟩
    cases p with
    | none => exact hfound
    | some p => exact skillLoop_mem _ p.skills.technical _ hfound

/-- C4: if the LLM capability reports an exception or a malformed structured
result, `extract_keywords` returns exactly the deterministic regex result;
the capability path cannot surface a failure (the model is a total
function). -/
theorem extract_keywords_llm_failure (description : String) (profile : Option Profile)
    (client : LLMClient) (e : String)
    (h : client.structuredResult = Except.error e) :
    extract_keywords description profile (some client)
      = _extract_keywords_regex description profile := by
  simp only [extract_keywords]
  cases hav : client.available <;> simp [hav, h]

/-- A capability whose call fails. -/
def failingClient : LLMClient :=
  { available := true
    structuredResult := Except.error "boom"
    invokeResult := Except.error "boom" }

/-- Witness for C4 at a concrete description and failing capability. -/
theorem extract_keywords_llm_failure_witness :
    extract_keywords "Python and SQL" none (some failingClient)
      = _extract_keywords_regex "Python and SQL" none :=
  extract_keywords_llm_failure "Python and SQL" none failingClient "boom" rfl

/-! ## `tycho.config`: scoring configuration -/

structure ScoringWeights where
  keyword_match : ℚ
  title_match : ℚ
  skills_overlap : ℚ
  location_match : ℚ
deriving DecidableEq

structure ScoringThresholds where
  high_interest : ℚ
  low_interest : ℚ
deriving DecidableEq

/-- `tycho.config.LocationConfig` (the `abbreviations` dict is modelled as an
association list). -/
structure LocationConfig where
  preferred : List String
  preferred_es : List String
  remote_keywords : List String
  abbreviations : List (String × String)
deriving DecidableEq

structure ScoringConfig where
  weights : ScoringWeights
  thresholds : ScoringThresholds
  locations : LocationConfig
deriving DecidableEq

/-- The Pydantic field defaults of `ScoringWeights`. -/
def defaultWeights : ScoringWeights :=
  { keyword_match := 35/100
    title_match := 25/100
    skills_overlap := 25/100
    location_match := 15/100 }

def defaultThresholds : ScoringThresholds :=
  { high_interest := 75/100, low_interest := 30/100 }

def defaultLocations : LocationConfig :=
  { preferred := ["madrid", "london", "edinburgh", "spain", "uk"]
    preferred_es := ["españa", "reino unido", "edimburgo", "londres"]
    remote_keywords := ["remote", "remoto"]
    abbreviations := [] }

def defaultScoringConfig : ScoringConfig :=
  { weights := defaultWeights
    thresholds := defaultThresholds
    locations := defaultLocations }

/-! ## `tycho.matcher.scorer` -/

/-- Python `round(x, 3)` on the rational model: round to an integer number
of thousandths (see file header about the tie rule). -/
def round3 (x : ℚ) : ℚ := ((round (x * 1000) : ℤ) : ℚ) / 1000

/-- `re.findall(r"\w+", s)`: the maximal runs of word characters, left to
right.  `cur` accumulates the current run in reverse. -/
def tokensAux : List Char → List Char → List (List Char)
  | cur, [] => if cur.isEmpty then [] else [cur.reverse]
  | cur, c :: cs =>
    if wordChar c then tokensAux (c :: cur) cs
    else if cur.isEmpty then tokensAux [] cs else cur.reverse :: tokensAux [] cs

def wordTokens (s : List Char) : List (List Char) := tokensAux [] s

/-- The word set of a title: `set(re.findall(r"\w+", title.lower()))`. -/
def wordSet (s : String) : Finset String :=
  ((wordTokens (lowerChars s.data)).map (fun t => (⟨t⟩ : String))).toFinset

/-- `_keyword_match_score` from `matcher/scorer.py`: fraction of job
keywords found among profile skill names and tags (all lowercased). -/
def _keyword_match_score (job_keywords : List String) (profile : Profile) : ℚ :=
  if job_keywords.isEmpty then 0
  else
    let profile_skills := profile.skills.technical.map (fun s => strLower s.name)
      ++ (profile.skills.technical.map (fun s => s.tags.map strLower)).flatten
    ((job_keywords.filter (fun kw => profile_skills.contains kw)).length : ℚ)
      / (job_keywords.length : ℚ)

/-- One step of `_title_match_score`'s loop over reference titles: skip
titles with an empty word set, otherwise take the max with the word-set
Jaccard similarity. -/
def titleStep (job_words : Finset String) (best : ℚ) (title : String) : ℚ :=
  if wordSet title = ∅ then best
  else
    max best (if (job_words ∪ wordSet title).card = 0 then 0
      else ((job_words ∩ wordSet title).card : ℚ) / ((job_words ∪ wordSet title).card : ℚ))

/-- `_title_match_score` from `matcher/scorer.py`. -/
def _title_match_score (job_title : String) (profile : Profile) : ℚ :=
  if wordSet job_title = ∅ then 0
  else
    (profile.personal.titles ++ profile.experience.map (fun e => e.title)).foldl
      (titleStep (wordSet job_title)) 0

/-- The profile skill-name set used by `_skills_overlap_score`. -/
def profileSkillSet (profile : Profile) : Finset String :=
  (profile.skills.technical.map (fun s => strLower s.name)).toFinset

/-- `_skills_overlap_score` from `matcher/scorer.py`: Jaccard similarity of
the job keyword set and the profile skill-name set. -/
def _skills_overlap_score (job_keywords : List String) (profile : Profile) : ℚ :=
  if job_keywords.toFinset = ∅ ∧ profileSkillSet profile = ∅ then 0
  else
    if (job_keywords.toFinset ∪ profileSkillSet profile).card = 0 then 0
    else ((job_keywords.toFinset ∩ profileSkillSet profile).card : ℚ)
      / ((job_keywords.toFinset ∪ profileSkillSet profile).card : ℚ)

/-- The fixed `known_locations` list hard-coded in `_location_match_score`. -/
def knownLocations : List String :=
  ["madrid", "london", "edinburgh", "spain", "uk", "remote",
   "remoto", "españa", "reino unido", "edimburgo", "londres"]

/-- `_location_match_score` from `matcher/scorer.py`.  Note: the source takes
the profile as its second argument and never reads it; it consults only the
hard-coded `known_locations` list, by substring containment, and no
configuration at all. -/
def _location_match_score (job_location : String) (profile : Profile) : ℚ :=
  if job_location = "" then 1/2
  else
    if isSubstring "remote".data (lowerChars job_location.data)
        || isSubstring "remoto".data (lowerChars job_location.data) then 1
    else if knownLocations.any
        (fun loc => isSubstring loc.data (lowerChars job_location.data)) then 1
    else 0

/-- `ScoreBreakdown`: the `details` dict built by `score_job`. -/
structure ScoreDetails where
  keyword_match : ℚ
  title_match : ℚ
  skills_overlap : ℚ
  location_match : ℚ
  job_keywords : List String
  total : ℚ
deriving DecidableEq

/-- The keyword list `score_job` extracts (no LLM capability is passed). -/
def scoreJobKeywords (job : Job) (profile : Profile) : List String :=
  extract_keywords job.description (some profile) none

/-- The raw (unrounded) weighted total of `score_job`. -/
def rawTotal (job : Job) (profile : Profile) (config : ScoringConfig) : ℚ :=
  config.weights.keyword_match * _keyword_match_score (scoreJobKeywords job profile) profile
    + config.weights.title_match * _title_match_score job.title profile
    + config.weights.skills_overlap * _skills_overlap_score (scoreJobKeywords job profile) profile
    + config.weights.location_match * _location_match_score job.location profile

/-- `score_job` from `matcher/scorer.py`. -/
def score_job (job : Job) (profile : Profile) (config : ScoringConfig) : ℚ × ScoreDetails :=
  (round3 (rawTotal job profile config),
   { keyword_match := round3 (_keyword_match_score (scoreJobKeywords job profile) profile)
     title_match := round3 (_title_match_score job.title profile)
     skills_overlap := round3 (_skills_overlap_score (scoreJobKeywords job profile) profile)
     location_match := round3 (_location_match_score job.location profile)
     job_keywords := scoreJobKeywords job profile
     total := round3 (rawTotal job profile config) })

/-! ### Lemmas about the scorer -/

theorem round3_idem (x : ℚ) : round3 (round3 x) = round3 x := by
  unfold round3
  have h : ((round (x * 1000) : ℤ) : ℚ) / 1000 * 1000 = ((round (x * 1000) : ℤ) : ℚ) := by
    field_simp
  rw [h, round_intCast]

theorem round3_nonneg {x : ℚ} (h : 0 ≤ x) : 0 ≤ round3 x := by
  unfold round3
  apply div_nonneg _ (by norm_num)
  have h1 : (0 : ℤ) ≤ round (x * 1000) := by
    rw [round_eq]
    apply Int.le_floor.mpr
    push_cast
    linarith
  exact_mod_cast h1

theorem round3_le_one {x : ℚ} (h : x ≤ 1) : round3 x ≤ 1 := by
  unfold round3
  rw [div_le_one (by norm_num)]
  have h1 : round (x * 1000) ≤ 1000 := by
    rw [round_eq]
    have h2 : ⌊x * 1000 + 1 / 2⌋ < 1001 := by
      apply Int.floor_lt.mpr
      push_cast
      linarith
    omega
  exact_mod_cast h1

theorem ratio_mem {a b : ℕ} (h : a ≤ b) :
    0 ≤ (if b = 0 then (0 : ℚ) else (a : ℚ) / (b : ℚ)) ∧
    (if b = 0 then (0 : ℚ) else (a : ℚ) / (b : ℚ)) ≤ 1 := by
  split
  · exact ⟨le_refl 0, by norm_num⟩
  · rename_i hb
    have hb' : 0 < (b : ℚ) := by exact_mod_cast Nat.pos_of_ne_zero hb
    constructor
    · exact div_nonneg (by positivity) (le_of_lt hb')
    · rw [div_le_one hb']
      exact_mod_cast h

theorem keyword_match_score_mem (l : List String) (p : Profile) :
    0 ≤ _keyword_match_score l p ∧ _keyword_match_score l p ≤ 1 := by
  unfold _keyword_match_score
  split
  · exact ⟨le_refl 0, by norm_num⟩
  · rename_i hne
    have hlen : 0 < l.length := by
      cases l with
      | nil => simp at hne
      | cons a l => simp
    have hlen' : 0 < (l.length : ℚ) := by exact_mod_cast hlen
    constructor
    · exact div_nonneg (by positivity) (le_of_lt hlen')
    · rw [div_le_one hlen']
      exact_mod_cast List.length_filter_le _ _

theorem inter_card_le_union_card (A B : Finset String) :
    (A ∩ B).card ≤ (A ∪ B).card :=
  Finset.card_le_card (Finset.inter_subset_left.trans Finset.subset_union_left)

theorem titleStep_mem (jw : Finset String) (best : ℚ) (title : String)
    (h0 : 0 ≤ best) (h1 : best ≤ 1) :
    0 ≤ titleStep jw best title ∧ titleStep jw best title ≤ 1 := by
  unfold titleStep
  split
  · exact ⟨h0, h1⟩
  · obtain ⟨r0, r1⟩ := ratio_mem (inter_card_le_union_card jw (wordSet title))
    exact ⟨le_max_of_le_left h0, max_le h1 r1⟩

theorem foldl_titleStep_mem (jw : Finset String) :
    ∀ (titles : List String) (best : ℚ), 0 ≤ best → best ≤ 1 →
      0 ≤ titles.foldl (titleStep jw) best ∧ titles.foldl (titleStep jw) best ≤ 1 := by
  intro titles
  induction titles with
  | nil => exact fun best h0 h1 => ⟨h0, h1⟩
  | cons t ts ih =>
      intro best h0 h1
      rw [List.foldl_cons]
      obtain ⟨a, b⟩ := titleStep_mem jw best t h0 h1
      exact ih _ a b

theorem title_match_score_mem (t : String) (p : Profile) :
    0 ≤ _title_match_score t p ∧ _title_match_score t p ≤ 1 := by
  unfold _title_match_score
  split
  · exact ⟨le_refl 0, by norm_num⟩
  · exact foldl_titleStep_mem _ _ 0 (le_refl 0) (by norm_num)

theorem skills_overlap_score_mem (l : List String) (p : Profile) :
    0 ≤ _skills_overlap_score l p ∧ _skills_overlap_score l p ≤ 1 := by
  unfold _skills_overlap_score
  split
  · exact ⟨le_refl 0, by norm_num⟩
  · exact ratio_mem (inter_card_le_union_card _ _)

theorem location_match_score_mem (s : String) (p : Profile) :
    0 ≤ _location_match_score s p ∧ _location_match_score s p ≤ 1 := by
  unfold _location_match_score
  split
  · norm_num
  · split
    · norm_num
    · split <;> norm_num

theorem weighted_total_mem {wk wt ws wl k t s l : ℚ}
    (hwk : 0 ≤ wk) (hwt : 0 ≤ wt) (hws : 0 ≤ ws) (hwl : 0 ≤ wl)
    (hsum : wk + wt + ws + wl ≤ 1)
    (k0 : 0 ≤ k) (k1 : k ≤ 1) (t0 : 0 ≤ t) (t1 : t ≤ 1)
    (s0 : 0 ≤ s) (s1 : s ≤ 1) (l0 : 0 ≤ l) (l1 : l ≤ 1) :
    0 ≤ wk * k + wt * t + ws * s + wl * l ∧ wk * k + wt * t + ws * s + wl * l ≤ 1 := by
  have a1 := mul_nonneg hwk k0
  have a2 := mul_nonneg hwt t0
  have a3 := mul_nonneg hws s0
  have a4 := mul_nonneg hwl l0
  have b1 := mul_le_of_le_one_right hwk k1
  have b2 := mul_le_of_le_one_right hwt t1
  have b3 := mul_le_of_le_one_right hws s1
  have b4 := mul_le_of_le_one_right hwl l1
  exact ⟨by linarith, by linarith⟩

theorem rawTotal_mem (job : Job) (profile : Profile) :
    0 ≤ rawTotal job profile defaultScoringConfig ∧
    rawTotal job profile defaultScoringConfig ≤ 1 := by
  obtain ⟨k0, k1⟩ := keyword_match_score_mem (scoreJobKeywords job profile) profile
  obtain ⟨t0, t1⟩ := title_match_score_mem job.title profile
  obtain ⟨s0, s1⟩ := skills_overlap_score_mem (scoreJobKeywords job profile) profile
  obtain ⟨l0, l1⟩ := location_match_score_mem job.location profile
  unfold rawTotal
  exact weighted_total_mem (by norm_num [defaultScoringConfig, defaultWeights])
    (by norm_num [defaultScoringConfig, defaultWeights])
    (by norm_num [defaultScoringConfig, defaultWeights])
    (by norm_num [defaultScoringConfig, defaultWeights])
    (by norm_num [defaultScoringConfig, defaultWeights])
    k0 k1 t0 t1 s0 s1 l0 l1

/-! ### Claim theorems for the scorer -/

/-- C7: under the default weights 0.35/0.25/0.25/0.15, every numeric value
stored in the breakdown and the returned total lie in `[0, 1]` and equal
their own rounding to 3 decimal places, and the returned total equals the
stored total. -/
theorem score_job_rounded_bounds (job : Job) (profile : Profile) :
    (0 ≤ (score_job job profile defaultScoringConfig).2.keyword_match ∧
      (score_job job profile defaultScoringConfig).2.keyword_match ≤ 1 ∧
      round3 (score_job job profile defaultScoringConfig).2.keyword_match
        = (score_job job profile defaultScoringConfig).2.keyword_match) ∧
    (0 ≤ (score_job job profile defaultScoringConfig).2.title_match ∧
      (score_job job profile defaultScoringConfig).2.title_match ≤ 1 ∧
      round3 (score_job job profile defaultScoringConfig).2.title_match
        = (score_job job profile defaultScoringConfig).2.title_match) ∧
    (0 ≤ (score_job job profile defaultScoringConfig).2.skills_overlap ∧
      (score_job job profile defaultScoringConfig).2.skills_overlap ≤ 1 ∧
      round3 (score_job job profile defaultScoringConfig).2.skills_overlap
        = (score_job job profile defaultScoringConfig).2.skills_overlap) ∧
    (0 ≤ (score_job job profile defaultScoringConfig).2.location_match ∧
      (score_job job profile defaultScoringConfig).2.location_match ≤ 1 ∧
      round3 (score_job job profile defaultScoringConfig).2.location_match
        = (score_job job profile defaultScoringConfig).2.location_match) ∧
    (0 ≤ (score_job job profile defaultScoringConfig).2.total ∧
      (score_job job profile defaultScoringConfig).2.total ≤ 1 ∧
      round3 (score_job job profile defaultScoringConfig).2.total
        = (score_job job profile defaultScoringConfig).2.total) ∧
    (score_job job profile defaultScoringConfig).1
      = (score_job job profile defaultScoringConfig).2.total := by
  obtain ⟨k0, k1⟩ := keyword_match_score_mem (scoreJobKeywords job profile) profile
  obtain ⟨t0, t1⟩ := title_match_score_mem job.title profile
  obtain ⟨s0, s1⟩ := skills_overlap_score_mem (scoreJobKeywords job profile) profile
  obtain ⟨l0, l1⟩ := location_match_score_mem job.location profile
  obtain ⟨T0, T1⟩ := rawTotal_mem job profile
  simp only [score_job]
  exact ⟨⟨round3_nonneg k0, round3_le_one k1, round3_idem _⟩,
    ⟨round3_nonneg t0, round3_le_one t1, round3_idem _⟩,
    ⟨round3_nonneg s0, round3_le_one s1, round3_idem _⟩,
    ⟨round3_nonneg l0, round3_le_one l1, round3_idem _⟩,
    ⟨round3_nonneg T0, round3_le_one T1, round3_idem _⟩, trivial⟩

/-- The `location_match` field stored by `score_job` is the rounded
location sub-score; the configuration does not occur in it. -/
theorem score_job_location_proj (job : Job) (p : Profile) (c : ScoringConfig) :
    (score_job job p c).2.location_match = round3 (_location_match_score job.location p) := rfl

/-- C10: the location sub-score is independent of the profile and of the
scoring configuration: `_location_match_score` takes the profile and never
reads it, consults only the hard-coded `known_locations` list, and the
config (including its `LocationConfig`) does not reach it at all. -/
theorem location_score_ignores_config_profile :
    (∀ (loc : String) (p q : Profile),
        _location_match_score loc p = _location_match_score loc q) ∧
    (∀ (job : Job) (p : Profile) (c c' : ScoringConfig),
        (score_job job p c).2.location_match = (score_job job p c').2.location_match) :=
  ⟨fun _ _ _ => rfl,
   fun job p c c' => by rw [score_job_location_proj, score_job_location_proj]⟩

/-- A profile with no content (used only to evaluate functions that ignore
their profile argument). -/
def emptyProfile : Profile :=
  { personal :=
      { name := ""
        email := ""
        titles := []
        summary := { default := "", variations := ⟨none, none, none⟩ } }
    skills := { technical := [], languages := [] }
    experience := []
    education := []
    other := [] }

/-- C2 (evaluation of the code at the tests' failing inputs): the source
`_location_match_score` ignores any configuration, so locations that the
repository's tests expect to match via a configured gazetteer or
abbreviation table ("ES" with `abbreviations={"es": "españa"}`,
"Berlin, Germany" with `preferred=["berlin"]`) score 0; substring matching
also fires inside longer words ("Remoteness Bay" scores 1 although no
whole-token remote keyword occurs).  The three concrete examples quoted by
the claim do hold. -/
theorem location_match_score_code_eval :
    _location_match_score "ES" emptyProfile = 0 ∧
    _location_match_score "Berlin, Germany" emptyProfile = 0 ∧
    _location_match_score "Remoteness Bay" emptyProfile = 1 ∧
    _location_match_score "" emptyProfile = 1/2 ∧
    _location_match_score "Remote" emptyProfile = 1 ∧
    _location_match_score "Senior Engineer" emptyProfile = 0 :=
  ⟨by decide, by decide, by decide, rfl, by decide, by decide⟩

/-! ### Claim theorems for `normalize_company` (C6) -/

/-- Claim C6's reading of `normalize_company` (spec §4.1: "strip one
trailing legal-entity suffix"): remove at most one suffix — the first of the
fixed list that matches — then re-trim.  Defined from the claim's words for
comparison with the implementation. -/
def normalize_company_oneSuffix (company : List Char) : List Char :=
  match companySuffixes.find? (fun suf => endsWith (normalize_text company) suf) with
  | some suf =>
      pyStrip ((normalize_text company).take ((normalize_text company).length - suf.length))
  | none => normalize_text company

/-- C6 counterexample: on "Acme Ltd Inc" the implementation's suffix loop
fires twice (" inc" first, then " ltd" on the already-shortened string) and
returns "acme", while stripping at most one suffix would return "acme ltd".
-/
theorem normalize_company_counterexample :
    normalize_company "Acme Ltd Inc".data = "acme".data ∧
    normalize_company_oneSuffix "Acme Ltd Inc".data = "acme ltd".data ∧
    normalize_company "Acme Ltd Inc".data ≠ "acme ltd".data :=
  ⟨by decide, by decide, by decide⟩

/-- C6 amended: `normalize_company` lowercases, trims and collapses
whitespace, then checks each of the nine suffixes once, in the fixed order
inc, inc., ltd, ltd., llc, s.a., s.l., gmbh, plc, stripping each one the
current value ends with — so several distinct suffixes can be removed from
one input ("Acme Ltd Inc" becomes "acme"), but each listed suffix is removed
at most once ("Acme Inc Inc" becomes "acme inc") — and finally re-trims. -/
theorem normalize_company_amended :
    (∀ s : List Char,
        normalize_company s = pyStrip (stripSuffixes companySuffixes (normalize_text s))) ∧
    normalize_company "Acme Ltd Inc".data = "acme".data ∧
    normalize_company "Acme Inc Inc".data = "acme inc".data ∧
    normalize_company "Acme Inc.".data = "acme".data ∧
    normalize_company "Google".data = "google".data ∧
    normalize_company "  Acme  Corp  Ltd  ".data = "acme corp".data :=
  ⟨fun s => rfl, by decide, by decide, by decide, by decide, by decide⟩

/-! ## `tycho.cv.module_selector` -/

def mlIndicators : Finset String :=
  {"pytorch", "tensorflow", "machine learning", "deep learning",
   "computer vision", "nlp", "onnx", "cuda", "ml"}

def backendIndicators : Finset String :=
  {"backend", "api", "fastapi", "django", "flask",
   "microservices", "docker", "kubernetes"}

def dataIndicators : Finset String :=
  {"data science", "data engineer", "analytics", "pandas",
   "statistics", "data"}

/-- `_detect_focus` from `cv/module_selector.py`.  Python's
`max(scores, key=scores.get)` keeps the first maximum in dict insertion
order `ml_focus, backend_focus, data_focus`; the nested conditionals below
implement exactly that scan. -/
def _detect_focus (job_keywords : Finset String) (job_title : String) : Option String :=
  let ml_score := (job_keywords ∩ mlIndicators).card
    + (if isSubstring "ml".data (lowerChars job_title.data)
        || isSubstring "machine learning".data (lowerChars job_title.data) then 2 else 0)
  let backend_score := (job_keywords ∩ backendIndicators).card
    + (if isSubstring "backend".data (lowerChars job_title.data)
        || isSubstring "software".data (lowerChars job_title.data) then 2 else 0)
  let data_score := (job_keywords ∩ dataIndicators).card
    + (if isSubstring "data".data (lowerChars job_title.data) then 2 else 0)
  let best :=
    if backend_score > ml_score then
      (if data_score > backend_score then ("data_focus", data_score)
       else ("backend_focus", backend_score))
    else
      (if data_score > ml_score then ("data_focus", data_score)
       else ("ml_focus", ml_score))
  if best.2 > 0 then some best.1 else none

/-- `getattr(summary.variations, focus, None)`. -/
def getSummaryVariation (v : SummaryVariations) (f : String) : Option String :=
  if f = "ml_focus" then v.ml_focus
  else if f = "backend_focus" then v.backend_focus
  else if f = "data_focus" then v.data_focus
  else none

/-- `_select_summary` from `cv/module_selector.py` (Python truthiness: a
missing or empty variation falls back to the default summary). -/
def _select_summary (profile : Profile) (focus : Option String) (language : String) : String :=
  match focus with
  | some f =>
      match getSummaryVariation profile.personal.summary.variations f with
      | some v => if v = "" then profile.personal.summary.default else v
      | none => profile.personal.summary.default
  | none => profile.personal.summary.default

/-- The per-skill score of `_select_skills`:
`kw_match * 3 + tag_overlap + priority_bonus`. -/
def skillScore (skill : Skill) (job_keywords : Finset String) : ℚ :=
  (if strLower skill.name ∈ job_keywords then (1 : ℚ) else 0) * 3
    + (((skill.tags.map strLower).toFinset ∩ job_keywords).card : ℚ)
      / ((max skill.tags.length 1 : ℕ) : ℚ)
    + (4 - (skill.priority : ℚ)) / 3

/-- The `scored_skills` list built by `_select_skills`. -/
def scoredSkills (profile : Profile) (job_keywords : Finset String) : List (String × ℚ) :=
  profile.skills.technical.map (fun skill => (skill.name, skillScore skill job_keywords))

/-- Insert into a list sorted by descending `score`, before the first
element of smaller-or-equal score (so an element inserted from the left
precedes existing equal-score elements: stability). -/
def insertDescBy {α : Type} (score : α → ℚ) (x : α) : List α → List α
  | [] => [x]
  | y :: ys => if score y ≤ score x then x :: y :: ys else y :: insertDescBy score x ys

/-- Python's stable `list.sort(key=..., reverse=True)` (descending, equal
keys keep their original relative order). -/
def sortDescBy {α : Type} (score : α → ℚ) : List α → List α
  | [] => []
  | x :: xs => insertDescBy score x (sortDescBy score xs)

/-- `_select_skills` from `cv/module_selector.py`. -/
def _select_skills (profile : Profile) (job_keywords : Finset String) : List String :=
  ((sortDescBy Prod.snd (scoredSkills profile job_keywords)).take 15).map Prod.fst

/-- `_score_bullet` from `cv/module_selector.py`: 0.0 for a bullet with no
tags at all, otherwise tag-overlap count plus the priority bonus. -/
def _score_bullet (bullet : Bullet) (job_keywords : Finset String) : ℚ :=
  if bullet.tags = [] then 0
  else (((bullet.tags.map strLower).toFinset ∩ job_keywords).card : ℚ)
    + (4 - (bullet.priority : ℚ)) / 3

/-- `getattr(bullet.variations, focus, None)`. -/
def getBulletVariation (v : BulletVariations) (f : String) : Option String :=
  if f = "ml_focus" then v.ml_focus
  else if f = "backend_focus" then v.backend_focus
  else if f = "data_focus" then v.data_focus
  else none

/-- `_get_bullet_text` from `cv/module_selector.py`. -/
def _get_bullet_text (bullet : Bullet) (focus : Option String) (language : String) : String :=
  if language = "es" ∧ bullet.text_es ≠ "" then bullet.text_es
  else
    match focus with
    | some f =>
        match getBulletVariation bullet.variations f with
        | some v => if v = "" then bullet.text else v
        | none => bullet.text
    | none => bullet.text

structure TailoredBullet where
  id : String
  text : String
  relevance_score : ℚ
deriving DecidableEq

structure TailoredEntry where
  id : String
  type : String
  title : String
  organization : String
  dates : String
  location : String
  note : Option String
  gpa : Option String
  skills : List String
  bullets : List TailoredBullet
deriving DecidableEq

structure TailoredProfile where
  personal : PersonalInfo
  summary : String
  skills : List String
  languages : List Language
  experience : List TailoredEntry
  education : List TailoredEntry
  other : List TailoredEntry
  job_id : String
  focus : Option String
deriving DecidableEq

/-- Python truthiness of an optional string field. -/
def optTruthy : Option String → Bool
  | none => false
  | some s => s ≠ ""

/-- `x_es if language == "es" and x_es else x` for plain string fields. -/
def resolveStr (language : String) (es : String) (dflt : String) : String :=
  if language = "es" ∧ es ≠ "" then es else dflt

/-- The bullet scoring/sorting/truncation shared by the three `_tailor_*`
functions (steps 4a–4c of the spec). -/
def selectedBullets (bullets : List Bullet) (job_keywords : Finset String)
    (focus : Option String) (language : String) (max_bullets : Nat) : List TailoredBullet :=
  ((sortDescBy Prod.snd (bullets.map (fun b => (b, _score_bullet b job_keywords)))).take
      max_bullets).map
    (fun p => { id := p.1.id
                text := _get_bullet_text p.1 focus language
                relevance_score := p.2 })

/-- `_tailor_experience` from `cv/module_selector.py`. -/
def _tailor_experience (exp : ExperienceModule) (job_keywords : Finset String)
    (focus : Option String) (language : String) (max_bullets : Nat) : TailoredEntry :=
  { id := exp.id
    type := "experience"
    title := resolveStr language exp.title_es exp.title
    organization := exp.company
    dates := resolveStr language exp.dates_es exp.dates
    location := exp.location
    note := if language = "es" ∧ optTruthy exp.note_es then exp.note_es else exp.note
    gpa := none
    skills := exp.skills
    bullets := selectedBullets exp.bullets job_keywords focus language max_bullets }

/-- `_tailor_education` from `cv/module_selector.py`. -/
def _tailor_education (edu : EducationModule) (job_keywords : Finset String)
    (focus : Option String) (language : String) (max_bullets : Nat) : TailoredEntry :=
  { id := edu.id
    type := "education"
    title := resolveStr language edu.degree_es edu.degree
    organization :=
      match edu.institution_es with
      | some v => if language = "es" ∧ v ≠ "" then v else edu.institution
      | none => edu.institution
    dates := resolveStr language edu.dates_es edu.dates
    location := edu.location
    note := none
    gpa := edu.gpa
    skills := edu.skills
    bullets := selectedBullets edu.bullets job_keywords focus language max_bullets }

/-- `_tailor_other` from `cv/module_selector.py`. -/
def _tailor_other (oth : OtherModule) (job_keywords : Finset String)
    (focus : Option String) (language : String) (max_bullets : Nat) : TailoredEntry :=
  { id := oth.id
    type := "other"
    title := resolveStr language oth.title_es oth.title
    organization := oth.organization
    dates := resolveStr language oth.dates_es oth.dates
    location := oth.location
    note := none
    gpa := none
    skills := oth.skills
    bullets := selectedBullets oth.bullets job_keywords focus language max_bullets }

/-- `select_modules` from `cv/module_selector.py` (the deterministic path:
the source in `src/` takes no capability argument). -/
def select_modules (profile : Profile) (job : Job) (language : String)
    (max_bullets_per_entry : Nat) : TailoredProfile :=
  let job_keywords := (extract_keywords job.description (some profile) none).toFinset
  let focus := _detect_focus job_keywords job.title
  { personal := profile.personal
    summary := _select_summary profile focus language
    skills := _select_skills profile job_keywords
    languages := profile.skills.languages
    experience := (profile.experience.filter (fun e => e.enabled)).map
      (fun e => _tailor_experience e job_keywords focus language max_bullets_per_entry)
    education := (profile.education.filter (fun e => e.enabled)).map
      (fun e => _tailor_education e job_keywords focus language max_bullets_per_entry)
    other := (profile.other.filter (fun o => o.enabled)).map
      (fun o => _tailor_other o job_keywords focus language max_bullets_per_entry)
    job_id := job.id
    focus := none }

/-! ### The LLM bullet-reranking step (claim C5)

`_llm_rerank_bullets` and the `llm_client` parameter of `select_modules` are
referenced by the repository's tests (`tests/test_module_selector.py`) but
absent from the source under `src/`; the definitions below are modelled from
the spec (§4.4 step 5, §7). -/

/-- One comma-separated token parsed as a decimal index. -/
def parseNatToken (t : List Char) : Option Nat :=
  if t ≠ [] ∧ t.all Char.isDigit then
    some (t.foldl (fun a c => a * 10 + (c.toNat - 48)) 0)
  else none

/-- Split on commas (Python `resp.split(",")`). -/
def splitComma : List Char → List (List Char)
  | [] => [[]]
  | c :: cs =>
    if c = ',' then [] :: splitComma cs
    else
      match splitComma cs with
      | [] => [[c]]
      | t :: ts => (c :: t) :: ts

/-- Modelled from the spec: parse the capability's reply as a literal
comma-separated sequence of indices; any non-numeric token fails the parse. -/
def parseNatList (resp : String) : Option (List Nat) :=
  (splitComma resp.data).mapM parseNatToken

/-- `l` is a permutation of the expected indices `1, …, n`. -/
def isPermOf (l : List Nat) (n : Nat) : Bool :=
  l.length = n && (List.range' 1 n).all (fun i => l.count i = 1)

/-- Modelled from the spec: the reply parses into a valid permutation of the
expected bullet indices, or the parse fails. -/
def parsePermutation (resp : String) (n : Nat) : Option (List Nat) :=
  match parseNatList resp with
  | none => none
  | some l => if isPermOf l n then some l else none

/-- Modelled from the spec: rerank one entry's bullets by the parsed
permutation; entries with at most one bullet are not sent to the capability,
and an unparseable reply leaves the order unchanged. -/
def rerankEntry (entry : TailoredEntry) (resp : String) : TailoredEntry :=
  if entry.bullets.length ≤ 1 then entry
  else
    match parsePermutation resp entry.bullets.length with
    | some perm => { entry with bullets := perm.filterMap (fun i => entry.bullets.get? (i - 1)) }
    | none => entry

/-- Modelled from the spec: `_llm_rerank_bullets` (missing from `src/`,
referenced by the tests): ask the capability to reorder bullets within each
tailored entry; a raised exception leaves the selection unchanged. -/
def _llm_rerank_bullets (t : TailoredProfile) (client : LLMClient) : TailoredProfile :=
  match client.invokeResult with
  | Except.error _ => t
  | Except.ok resp =>
      { t with
        experience := t.experience.map (fun e => rerankEntry e resp)
        education := t.education.map (fun e => rerankEntry e resp)
        other := t.other.map (fun e => rerankEntry e resp) }

/-- Modelled from the spec: `select_modules` with the optional reranking
capability (its `llm_client` parameter is missing from `src/`): run the
deterministic selection, then rerank if the capability is available. -/
def select_modules_llm (profile : Profile) (job : Job) (language : String)
    (max_bullets_per_entry : Nat) (llm_client : Option LLMClient) : TailoredProfile :=
  match llm_client with
  | none => select_modules profile job language max_bullets_per_entry
  | some client =>
      if client.available then
        _llm_rerank_bullets (select_modules profile job language max_bullets_per_entry) client
      else select_modules profile job language max_bullets_per_entry

/-! ### Lemmas about the stable descending sort -/

theorem insertDescBy_perm {α : Type} (score : α → ℚ) (x : α) :
    ∀ l : List α, (insertDescBy score x l).Perm (x :: l) := by
  intro l
  induction l with
  | nil => exact List.Perm.refl _
  | cons y ys ih =>
      unfold insertDescBy
      split
      · exact List.Perm.refl _
      · exact (List.Perm.cons y ih).trans (List.Perm.swap x y ys)

theorem sortDescBy_perm {α : Type} (score : α → ℚ) :
    ∀ l : List α, (sortDescBy score l).Perm l := by
  intro l
  induction l with
  | nil => exact List.Perm.refl _
  | cons x xs ih =>
      exact (insertDescBy_perm score x (sortDescBy score xs)).trans (List.Perm.cons x ih)

theorem insertDescBy_pairwise {α : Type} (score : α → ℚ) (x : α) :
    ∀ {l : List α}, l.Pairwise (fun a b => score b ≤ score a) →
      (insertDescBy score x l).Pairwise (fun a b => score b ≤ score a) := by
  intro l
  induction l with
  | nil => intro _; exact List.pairwise_singleton _ _
  | cons y ys ih =>
      intro hp
      unfold insertDescBy
      split
      · rename_i hle
        apply List.Pairwise.cons _ hp
        intro z hz
        rcases List.mem_cons.mp hz with rfl | hz
        · exact hle
        · exact le_trans ((List.pairwise_cons.mp hp).1 z hz) hle
      · rename_i hlt
        have hxy : score x ≤ score y := le_of_lt (not_le.mp hlt)
        obtain ⟨hy, hys⟩ := List.pairwise_cons.mp hp
        apply List.Pairwise.cons _ (ih hys)
        intro z hz
        have hz' := (insertDescBy_perm score x ys).mem_iff.mp hz
        rcases List.mem_cons.mp hz' with rfl | hz'
        · exact hxy
        · exact hy z hz'

theorem sortDescBy_pairwise {α : Type} (score : α → ℚ) :
    ∀ l : List α, (sortDescBy score l).Pairwise (fun a b => score b ≤ score a) := by
  intro l
  induction l with
  | nil => exact List.Pairwise.nil
  | cons x xs ih => exact insertDescBy_pairwise score x ih

theorem insertDescBy_filter_score {α : Type} (score : α → ℚ) (x : α) (c : ℚ) :
    ∀ {l : List α}, l.Pairwise (fun a b => score b ≤ score a) →
      (insertDescBy score x l).filter (fun a => score a = c)
        = if score x = c then x :: l.filter (fun a => score a = c)
          else l.filter (fun a => score a = c) := by
  intro l
  induction l with
  | nil =>
      intro _
      by_cases hc : score x = c <;> simp [insertDescBy, List.filter_cons, hc]
  | cons y ys ih =>
      intro hp
      obtain ⟨hy, hys⟩ := List.pairwise_cons.mp hp
      unfold insertDescBy
      split
      · rename_i hle
        by_cases hc : score x = c <;> simp [List.filter_cons, hc]
      · rename_i hlt
        have hxy : score x < score y := not_le.mp hlt
        by_cases hxc : score x = c
        · have hyc : score y ≠ c := by
            intro h
            rw [hxc, h] at hxy
            exact lt_irrefl c hxy
          simp [List.filter_cons, ih hys, hxc, hyc]
        · simp [List.filter_cons, ih hys, hxc]

theorem sortDescBy_filter_score {α : Type} (score : α → ℚ) (c : ℚ) :
    ∀ l : List α, (sortDescBy score l).filter (fun a => score a = c)
      = l.filter (fun a => score a = c) := by
  intro l
  induction l with
  | nil => rfl
  | cons x xs ih =>
      show (insertDescBy score x (sortDescBy score xs)).filter _ = _
      rw [insertDescBy_filter_score score x c (sortDescBy_pairwise score xs)]
      by_cases hc : score x = c
      · rw [if_pos hc, ih, List.filter_cons, if_pos (by simp [hc])]
      · rw [if_neg hc, ih, List.filter_cons, if_neg (by simp [hc])]

/-! ### Claim theorems for the tailoring selector -/

/-- C9: skill ranking scores each skill as
`3·(name ∈ keywords) + tag-overlap/max(tag-count, 1) + (4 − priority)/3`,
sorts descending by score with a stable sort (equal scores keep profile
order: filtering any score class is order-preserving), and returns at most
15 names. -/
theorem select_skills_ranked (profile : Profile) (job_keywords : Finset String) :
    scoredSkills profile job_keywords = profile.skills.technical.map (fun skill =>
        (skill.name,
          (if strLower skill.name ∈ job_keywords then (1 : ℚ) else 0) * 3
            + (((skill.tags.map strLower).toFinset ∩ job_keywords).card : ℚ)
              / ((max skill.tags.length 1 : ℕ) : ℚ)
            + (4 - (skill.priority : ℚ)) / 3)) ∧
    _select_skills profile job_keywords
      = ((sortDescBy Prod.snd (scoredSkills profile job_keywords)).take 15).map Prod.fst ∧
    (_select_skills profile job_keywords).length ≤ 15 ∧
    (sortDescBy Prod.snd (scoredSkills profile job_keywords)).Perm
      (scoredSkills profile job_keywords) ∧
    (sortDescBy Prod.snd (scoredSkills profile job_keywords)).Pairwise
      (fun a b => b.2 ≤ a.2) ∧
    (∀ c : ℚ, (sortDescBy Prod.snd (scoredSkills profile job_keywords)).filter
        (fun p => p.2 = c)
      = (scoredSkills profile job_keywords).filter (fun p => p.2 = c)) := by
  refine ⟨rfl, rfl, ?_, sortDescBy_perm _ _, sortDescBy_pairwise _ _,
    fun c => sortDescBy_filter_score _ c _⟩
  show ((((sortDescBy Prod.snd (scoredSkills profile job_keywords)).take 15).map
    Prod.fst).length) ≤ 15
  rw [List.length_map]
  exact List.length_take_le _ _

/-- C5: when `select_modules` runs with a reranking capability whose reply
does not parse into a valid permutation of the expected bullet indices (for
any entry size), the result — bullet order within every entry included — is
identical to the deterministic selection with no capability at all. -/
theorem select_modules_unparseable_rerank (profile : Profile) (job : Job)
    (language : String) (maxB : Nat) (client : LLMClient) (resp : String)
    (hresp : client.invokeResult = Except.ok resp)
    (hparse : ∀ n : Nat, parsePermutation resp n = none) :
    select_modules_llm profile job language maxB (some client)
      = select_modules profile job language maxB := by
  have hent : ∀ e : TailoredEntry, rerankEntry e resp = e := by
    intro e
    unfold rerankEntry
    split
    · rfl
    · rw [hparse]
  have hmap : ∀ l : List TailoredEntry, l.map (fun e => rerankEntry e resp) = l := by
    intro l
    induction l with
    | nil => rfl
    | cons e l ih => rw [List.map_cons, hent, ih]
  have hrr : ∀ t : TailoredProfile, _llm_rerank_bullets t client = t := by
    intro t
    unfold _llm_rerank_bullets
    rw [hresp]
    show { t with
        experience := t.experience.map (fun e => rerankEntry e resp)
        education := t.education.map (fun e => rerankEntry e resp)
        other := t.other.map (fun e => rerankEntry e resp) } = t
    rw [hmap, hmap, hmap]
  cases hav : client.available
  · simp [select_modules_llm, hav]
  · simp [select_modules_llm, hav, hrr]

/-- Concrete inputs for the C5 witness: a profile with one enabled
experience entry carrying two bullets, and a posting that selects both. -/
def rerankWitnessProfile : Profile :=
  { personal :=
      { name := "A"
        email := "a@example.com"
        titles := ["Engineer"]
        summary := { default := "Hi", variations := ⟨none, none, none⟩ } }
    skills := { technical := [⟨"Python", ["ml"], 1⟩], languages := [] }
    experience :=
      [{ id := "e1", company := "Acme", title := "Dev", title_es := "",
         dates := "2020", dates_es := "", location := "Madrid", note := none,
         note_es := none, priority := 1, skills := [],
         bullets := [⟨"b1", "Did X", "", ["python"], 1, ⟨none, none, none⟩⟩,
                     ⟨"b2", "Did Y", "", ["ml"], 2, ⟨none, none, none⟩⟩],
         enabled := true }]
    education := []
    other := [] }

def rerankWitnessJob : Job :=
  { id := "j1", title := "ML Engineer", company := "Acme", location := "Remote",
    description := "Python and machine learning" }

/-- A capability whose reply is not a comma-separated index list. -/
def unparseableClient : LLMClient :=
  { available := true
    structuredResult := Except.error "x"
    invokeResult := Except.ok "invalid response" }

/-- Witness for C5 at concrete inputs: the hypothesis that "invalid
response" parses into no permutation holds definitionally for every `n`. -/
theorem select_modules_unparseable_rerank_witness :
    select_modules_llm rerankWitnessProfile rerankWitnessJob "en" 4 (some unparseableClient)
      = select_modules rerankWitnessProfile rerankWitnessJob "en" 4 :=
  select_modules_unparseable_rerank rerankWitnessProfile rerankWitnessJob "en" 4
    unparseableClient "invalid response" rfl (fun _ => rfl)

end Tycho
